import Mathlib

/-!
Shallow embedding of the PakFu release-governance scripts.

The Python sources embedded here are:
  scripts/release_assets.py          (asset naming codec)
  scripts/release_manifest.py        (manifest assembly)
  scripts/validate_release_assets.py (completeness validator)
  scripts/next_version.py            (version resolver)

Strings are modelled over their underlying character lists.  Character
classes of the Python regexes are modelled over ASCII (every character
appearing in the fixed grammars is ASCII; Python's Unicode case folding
quirks outside ASCII are out of scope).  Calls to git and to the file
system are modelled by passing their results (tag listings, commit lists,
the baseline file's text, directory listings) as explicit parameters.
Fallible Python code (raising exceptions) is modelled with Option/Except.
-/

/-! ## Character helpers (ASCII model of Python `str.lower`, `str.strip`) -/

/-- ASCII lower-casing of one character, as Python `str.lower` acts on the
ASCII range (and as `re.IGNORECASE` folds the ASCII classes used here). -/
def lowerChar (c : Char) : Char :=
  if 65 ≤ c.toNat ∧ c.toNat ≤ 90 then Char.ofNat (c.toNat + 32) else c

/-- Python whitespace stripped by `str.strip` (ASCII part). -/
def isPySpace (c : Char) : Bool :=
  decide (c.toNat = 32 ∨ c.toNat = 9 ∨ c.toNat = 10 ∨ c.toNat = 13 ∨
    c.toNat = 11 ∨ c.toNat = 12)

/-- The class `\d` of the asset regex. -/
def isDigitC (c : Char) : Bool :=
  decide (48 ≤ c.toNat ∧ c.toNat ≤ 57)

/-- Characters a version group can consist of: digits and dots. -/
def isVersionChar (c : Char) : Bool :=
  isDigitC c || decide (c.toNat = 46)

/-- The class `[a-z0-9_]` under `re.IGNORECASE` (arch group). -/
def isArchChar (c : Char) : Bool :=
  decide ((97 ≤ c.toNat ∧ c.toNat ≤ 122) ∨ (65 ≤ c.toNat ∧ c.toNat ≤ 90) ∨
    (48 ≤ c.toNat ∧ c.toNat ≤ 57) ∨ c.toNat = 95)

/-- The class `[a-z0-9.]` under `re.IGNORECASE` (extension group). -/
def isExtChar (c : Char) : Bool :=
  decide ((97 ≤ c.toNat ∧ c.toNat ≤ 122) ∨ (65 ≤ c.toNat ∧ c.toNat ≤ 90) ∨
    (48 ≤ c.toNat ∧ c.toNat ≤ 57) ∨ c.toNat = 46)

/-- The class `\w` of the conventional-commit regexes (ASCII part). -/
def isWordChar (c : Char) : Bool :=
  decide ((97 ≤ c.toNat ∧ c.toNat ≤ 122) ∨ (65 ≤ c.toNat ∧ c.toNat ≤ 90) ∨
    (48 ≤ c.toNat ∧ c.toNat ≤ 57) ∨ c.toNat = 95)

/-- Python `str.lower` over a whole string (ASCII model). -/
def strLower (s : String) : String :=
  ⟨s.data.map lowerChar⟩

/-- Python `str.strip` on a character list (ASCII whitespace model). -/
def pyStripL (cs : List Char) : List Char :=
  ((cs.dropWhile isPySpace).reverse.dropWhile isPySpace).reverse

/-! ## release_assets.py -/

/-- `SUPPORTED_PLATFORMS` from release_assets.py. -/
def SUPPORTED_PLATFORMS : List String := ["windows", "macos", "linux"]

/-- `SUPPORTED_KINDS` from release_assets.py. -/
def SUPPORTED_KINDS : List String := ["portable", "installer"]

/-- The fixed `EXPECTED_EXTENSIONS` table of release_assets.py. -/
def EXPECTED_EXTENSIONS : List ((String × String) × String) :=
  [(("windows", "portable"), "zip"),
   (("windows", "installer"), "msi"),
   (("macos", "portable"), "zip"),
   (("macos", "installer"), "pkg"),
   (("linux", "portable"), "tar.gz"),
   (("linux", "installer"), "AppImage")]

/-- `normalize_arch` from release_assets.py: strip, lower, collapse the two
synonym classes. -/
def normalize_arch (raw_arch : String) : String :=
  let value : String := ⟨(pyStripL raw_arch.data).map lowerChar⟩
  if value = "x86_64" ∨ value = "amd64" ∨ value = "x64" then "x64"
  else if value = "aarch64" ∨ value = "arm64" then "arm64"
  else value

/-- `expected_extension` from release_assets.py; the source raises
`ValueError` on a pair outside the table, modelled by `none`. -/
def expected_ext? (platform kind : String) : Option String :=
  (EXPECTED_EXTENSIONS.find? (fun e => e.1 = (strLower platform, strLower kind))).map (·.2)

/-- `is_installable` from release_assets.py.  The source raises on a
platform/kind pair outside the table (`none` branch), which is unreachable
from `parse_asset_name`; it is modelled as `false` here. -/
def is_installable (platform kind extension : String) : Bool :=
  if strLower kind ≠ "installer" then false
  else
    match expected_ext? platform kind with
    | some expected => strLower extension = strLower expected
    | none => false

/-- `expected_filename` from release_assets.py (the encoder); `none` models
the `ValueError` raised for a pair outside the table. -/
def expected_filename (version platform arch kind : String) : Option String :=
  let normalized_platform := strLower platform
  let normalized_arch := normalize_arch arch
  let normalized_kind := strLower kind
  match expected_ext? normalized_platform normalized_kind with
  | none => none
  | some ext =>
      some ("pakfu-" ++ version ++ "-" ++ normalized_platform ++ "-" ++
        normalized_arch ++ "-" ++ normalized_kind ++ "." ++ ext)

/-- `ReleaseAsset` dataclass from release_assets.py. -/
structure ReleaseAsset where
  filename : String
  version : String
  platform : String
  arch : String
  kind : String
  extension : String
  installable : Bool
deriving DecidableEq, Repr

/-! ### The `ASSET_RE` regex

`^pakfu-(\d+(?:\.\d+){2,})-(windows|macos|linux)-([a-z0-9_]+)-`
`(portable|installer)\.([a-z0-9.]+)$` with `re.IGNORECASE`.

Each group's character class excludes the delimiter that follows it, so the
backtracking match of the Python regex coincides with the greedy
left-to-right scan implemented below (see the stage-by-stage comments).
-/

/-- Splitting a character list at the dots, as the version grammar reads it. -/
def splitOnDot : List Char → List (List Char)
  | [] => [[]]
  | c :: cs =>
      if c = '.' then [] :: splitOnDot cs
      else
        match splitOnDot cs with
        | [] => [[c]]
        | s :: ss => (c :: s) :: ss

/-- Whether a character run is a full match of `\d+(?:\.\d+){2,}`: at least
three dot-separated nonempty digit segments. -/
def versionOk (v : List Char) : Bool :=
  let segs := splitOnDot v
  decide (3 ≤ segs.length) && segs.all (fun s => !s.isEmpty && s.all isDigitC)

/-- Case-insensitive match of a (lower-case) literal; returns the matched
original characters and the remainder. -/
def stripLitCI : List Char → List Char → Option (List Char × List Char)
  | [], cs => some ([], cs)
  | _ :: _, [] => none
  | p :: ps, c :: cs =>
      if lowerChar c = p then
        match stripLitCI ps cs with
        | some (m, rest) => some (c :: m, rest)
        | none => none
      else none

/-- The alternation `windows|macos|linux` (no alternative is a prefix of
another, so first-match order is immaterial). -/
def matchPlatform (cs : List Char) : Option (List Char × List Char) :=
  match stripLitCI "windows".data cs with
  | some r => some r
  | none =>
      match stripLitCI "macos".data cs with
      | some r => some r
      | none => stripLitCI "linux".data cs

/-- The alternation `portable|installer`. -/
def matchKind (cs : List Char) : Option (List Char × List Char) :=
  match stripLitCI "portable".data cs with
  | some r => some r
  | none => stripLitCI "installer".data cs

/-- The trailing `\.([a-z0-9.]+)$`. -/
def matchExt : List Char → Option (List Char)
  | '.' :: ext => if !ext.isEmpty && ext.all isExtChar then some ext else none
  | _ => none

/-- Kind alternation followed by the extension tail. -/
def matchKindExt (cs : List Char) : Option (List Char × List Char) :=
  match matchKind cs with
  | some (kind, rest) =>
      match matchExt rest with
      | some ext => some (kind, ext)
      | none => none
  | none => none

/-- `-([a-z0-9_]+)-` arch group (maximal munch; the class excludes `-`)
followed by the kind/extension tail. -/
def matchArchTail (cs : List Char) : Option (List Char × List Char × List Char) :=
  let arch := cs.takeWhile isArchChar
  match cs.dropWhile isArchChar with
  | '-' :: rest =>
      if arch.isEmpty then none
      else
        match matchKindExt rest with
        | some (kind, ext) => some (arch, kind, ext)
        | none => none
  | _ => none

/-- Platform alternation, its following `-`, and the rest of the grammar. -/
def matchPlatTail (cs : List Char) :
    Option (List Char × List Char × List Char × List Char) :=
  match matchPlatform cs with
  | some (plat, rest) =>
      match rest with
      | '-' :: rest2 => (matchArchTail rest2).map (fun r => (plat, r.1, r.2.1, r.2.2))
      | _ => none
  | none => none

/-- The captured groups of `ASSET_RE`. -/
structure RawGroups where
  version : List Char
  platform : List Char
  arch : List Char
  kind : List Char
  ext : List Char
deriving DecidableEq

/-- Full match of `ASSET_RE` against a character list. -/
def assetMatch (cs : List Char) : Option RawGroups :=
  match stripLitCI "pakfu-".data cs with
  | some (_, rest) =>
      let ver := rest.takeWhile isVersionChar
      match rest.dropWhile isVersionChar with
      | '-' :: rest2 =>
          if versionOk ver then
            match matchPlatTail rest2 with
            | some (plat, arch, kind, ext) => some ⟨ver, plat, arch, kind, ext⟩
            | none => none
          else none
      | _ => none
  | none => none

/-- `parse_asset_name` from release_assets.py (the decoder). -/
def parse_asset_name (filename : String) : Option ReleaseAsset :=
  match assetMatch filename.data with
  | none => none
  | some g =>
      let version : String := ⟨g.version⟩
      let platform := strLower ⟨g.platform⟩
      let arch := normalize_arch ⟨g.arch⟩
      let kind := strLower ⟨g.kind⟩
      let extension : String := ⟨g.ext⟩
      match expected_ext? platform kind with
      | none => none
      | some expected =>
          if strLower extension ≠ strLower expected then none
          else
            some { filename := filename, version := version, platform := platform,
                   arch := arch, kind := kind, extension := extension,
                   installable := is_installable platform kind extension }

/-! ## release_manifest.py -/

/-- The classification loop of release_manifest.py `main`: each file of the
(filename-sorted) distribution listing is decoded; a decode failure or a
version mismatch sends the filename to `ignored_files`, otherwise the
decoded asset record is appended to `assets`.  Size and content hash of the
asset records are file-system effects outside this embedding and are not
part of any claim. -/
def manifest_split : List String → String → List ReleaseAsset × List String
  | [], _ => ([], [])
  | f :: fs, version =>
      let rest := manifest_split fs version
      match parse_asset_name f with
      | some parsed =>
          if parsed.version ≠ version then (rest.1, f :: rest.2)
          else (parsed :: rest.1, rest.2)
      | none => (rest.1, f :: rest.2)

/-! ## validate_release_assets.py -/

/-- `collect_assets`: decode every filename of the sorted listing, keeping
the successes. -/
def collect_assets (files : List String) : List ReleaseAsset :=
  files.filterMap parse_asset_name

/-- Python truthiness of an optional string argument (`if platform:`,
`if arch:`): `None` and the empty string are falsy. -/
def truthy : Option String → Option String
  | some s => if s = "" then none else some s
  | none => none

/-- `normalize_arch(arch) if arch else None`, combined with the `if
normalized_arch:` truthiness applied at every use site. -/
def norm_arch_scope (arch : Option String) : Option String :=
  match truthy arch with
  | some a => truthy (some (normalize_arch a))
  | none => none

/-- The three scope filters at the head of `validate_assets`. -/
def scope_filter (assets : List ReleaseAsset) (version : String)
    (platform narch : Option String) : List ReleaseAsset :=
  let f1 := assets.filter (fun a => a.version = version)
  let f2 := match platform with
    | some p => f1.filter (fun a => a.platform = p)
    | none => f1
  match narch with
  | some na => f2.filter (fun a => a.arch = na)
  | none => f2

/-- The scope description of the "No release assets found" message. -/
def scope_descr (version : String) (platform narch : Option String) : String :=
  "version=" ++ version ++
    (match platform with | some p => ", platform=" ++ p | none => "") ++
    (match narch with | some na => ", arch=" ++ na | none => "")

/-- One `defaultdict(set)` update: add `kind` to the kind set of `key`,
keeping insertion order of keys (Python dict order); the kind list carries
set semantics (no duplicates). -/
def addKindToGroups (groups : List ((String × String) × List String))
    (key : String × String) (kind : String) :
    List ((String × String) × List String) :=
  match groups with
  | [] => [(key, [kind])]
  | (k, kinds) :: rest =>
      if k = key then
        (k, if kind ∈ kinds then kinds else kinds ++ [kind]) :: rest
      else (k, kinds) :: addKindToGroups rest key kind

/-- `by_platform_arch`: group the filtered assets by (platform, arch) and
collect the kinds seen per group. -/
def by_platform_arch (filtered : List ReleaseAsset) :
    List ((String × String) × List String) :=
  filtered.foldl (fun gs a => addKindToGroups gs (a.platform, a.arch) a.kind) []

/-- `", ".join`. -/
def joinCommaSp : List String → String
  | [] => ""
  | [s] => s
  | s :: rest => s ++ ", " ++ joinCommaSp rest

/-- One iteration of the platform-scoped loop of `validate_assets`: report
the missing kinds of one (platform, arch) group.  `sorted({"portable",
"installer"} - kinds)` is alphabetical, hence the `installer`-first
candidate list. -/
def missing_kind_step (version : String) (errs : List String)
    (g : (String × String) × List String) : List String :=
  let missing := ["installer", "portable"].filter (fun k => !(g.2.contains k))
  if missing.isEmpty then errs
  else
    errs ++ ["Missing " ++ joinCommaSp missing ++ " package(s) for " ++
      g.1.1 ++ "/" ++ g.1.2 ++ " @ " ++ version ++ "."]

/-- One iteration of the unscoped loop of `validate_assets`: check one
supported platform against the groups. -/
def platform_check_step (groups : List ((String × String) × List String))
    (version : String) (errs : List String) (p : String) : List String :=
  let rows := (groups.filter (fun g => g.1.1 = p)).map (·.2)
  if rows.isEmpty then
    errs ++ ["Missing all assets for platform " ++ p ++ " @ " ++ version ++ "."]
  else if !(rows.any (fun kinds => kinds.contains "portable" && kinds.contains "installer")) then
    errs ++ ["Platform " ++ p ++ " does not have both portable and installer assets @ " ++
      version ++ "."]
  else errs

/-- `validate_assets` from validate_release_assets.py. -/
def validate_assets (assets : List ReleaseAsset) (version : String)
    (platform arch : Option String) : Bool × List String :=
  let tplat := truthy platform
  let narch := norm_arch_scope arch
  let filtered := scope_filter assets version tplat narch
  if filtered.isEmpty then
    (false, ["No release assets found for " ++ scope_descr version tplat narch ++ "."])
  else
    let groups := by_platform_arch filtered
    let errors :=
      match tplat with
      | some _ => groups.foldl (missing_kind_step version) []
      | none => SUPPORTED_PLATFORMS.foldl (platform_check_step groups version) []
    (errors.isEmpty, errors)

/-! ## next_version.py -/

/-- Value of a digit run. -/
def natOfDigits (cs : List Char) : Nat :=
  cs.foldl (fun n c => 10 * n + (c.toNat - 48)) 0

/-- `parse_version`: strip, accept an optional leading `v`, then 1 to 4
dot-separated digit segments (the anchored `VERSION_RE`), and reject
anything with fewer than 3 segments. -/
def parse_version (text : String) : Option (List Nat) :=
  let cs0 := pyStripL text.data
  let cs := match cs0 with
    | 'v' :: rest => rest
    | _ => cs0
  let segs := splitOnDot cs
  if segs.length ≤ 4 ∧ segs.all (fun s => !s.isEmpty && s.all isDigitC) then
    let parts := segs.map natOfDigits
    if parts.length < 3 then none else some parts
  else none

/-- `read_version_file`, applied to the baseline file's text; the
`RuntimeError` on unparsable text is the `Except.error` branch. -/
def read_version_file (raw : String) : Except String (List Nat) :=
  match parse_version raw with
  | none => Except.error ("VERSION is not numeric: " ++ raw)
  | some parts => Except.ok (parts.take 3)

/-- `list_tags`, applied to the tag names reported by git. -/
def list_tags (tagNames : List String) : List (String × List Nat) :=
  tagNames.filterMap (fun tag => (parse_version tag).map (fun parts => (tag, parts)))

/-- Lexicographic comparison of version segment lists (Python tuple `<`). -/
def listLt : List Nat → List Nat → Bool
  | [], [] => false
  | [], _ :: _ => true
  | _ :: _, [] => false
  | a :: as, b :: bs => if a < b then true else if b < a then false else listLt as bs

/-- `latest_stable_tag`: the maximum 3-segment tag by tuple order (Python
`max` keeps the first of equals). -/
def latest_stable_tag (tags : List (String × List Nat)) :
    Option (String × List Nat) :=
  match tags.filter (fun t => t.2.length = 3) with
  | [] => none
  | t :: ts => some (ts.foldl (fun best cur => if listLt best.2 cur.2 then cur else best) t)

/-- `BREAKING_RE = ^\w+(\(.+\))?!:` — search for the closing paren of
`\(.+\)` followed by `!:`; the flag records whether at least one inner
(non-newline) character has been consumed. -/
def searchCloseBang : List Char → Bool → Bool
  | [], _ => false
  | c :: rest, innerSeen =>
      (innerSeen && c = ')' &&
        (match rest with | '!' :: ':' :: _ => true | _ => false)) ||
      (c ≠ '\n' && searchCloseBang rest true)

/-- After the `\w+` of `BREAKING_RE`: either `!:` directly or a
parenthesised scope followed by `!:`. -/
def afterWordBang (cs : List Char) : Bool :=
  (match cs with | '!' :: ':' :: _ => true | _ => false) ||
  (match cs with | '(' :: rest => searchCloseBang rest false | _ => false)

/-- `\w+` of `BREAKING_RE`, having consumed at least one word character:
stop here or extend the word. -/
def breakingAfter : List Char → Bool
  | [] => false
  | c :: rest => afterWordBang (c :: rest) || (isWordChar c && breakingAfter rest)

/-- `BREAKING_RE.match(subject)` as a Boolean. -/
def breaking_match (s : String) : Bool :=
  match s.data with
  | c :: rest => isWordChar c && breakingAfter rest
  | [] => false

/-- Closing paren of `FEATURE_RE`'s optional scope, followed by `:`. -/
def searchCloseColon : List Char → Bool → Bool
  | [], _ => false
  | c :: rest, innerSeen =>
      (innerSeen && c = ')' &&
        (match rest with | ':' :: _ => true | _ => false)) ||
      (c ≠ '\n' && searchCloseColon rest true)

/-- `FEATURE_RE = ^feat(\(.+\))?:` with `re.IGNORECASE`. -/
def feature_match (s : String) : Bool :=
  match s.data.map lowerChar with
  | 'f' :: 'e' :: 'a' :: 't' :: rest =>
      (match rest with | ':' :: _ => true | _ => false) ||
      (match rest with | '(' :: rest2 => searchCloseColon rest2 false | _ => false)
  | _ => false

/-- `"BREAKING CHANGE" in body` on character lists. -/
def containsBreakingL : List Char → Bool
  | [] => false
  | c :: rest =>
      "BREAKING CHANGE".data.isPrefixOf (c :: rest) || containsBreakingL rest

/-- `"BREAKING CHANGE" in body`. -/
def containsBreaking (body : String) : Bool :=
  containsBreakingL body.data

/-- The fold of `classify_bump` over the commit list, with early return on
a breaking signal. -/
def classifyGo : List (String × String) → String → String
  | [], bump => bump
  | (subject, body) :: rest, bump =>
      if breaking_match subject || containsBreaking body then "major"
      else if feature_match subject then classifyGo rest "minor"
      else classifyGo rest bump

/-- `classify_bump` from next_version.py: `None` on an empty commit list,
else the folded severity starting from `"patch"`. -/
def classify_bump (commits : List (String × String)) : Option String :=
  match commits with
  | [] => none
  | _ :: _ => some (classifyGo commits "patch")

/-- `bump_version` from next_version.py.  The source unpacks `major, minor,
patch = base`, raising on any other shape (`none`). -/
def bump_version (base : List Nat) (bump : String) : Option (List Nat) :=
  match base with
  | [major, minor, patch] =>
      some (if bump = "major" then
              (if major = 0 then [major, minor + 1, 0] else [major + 1, 0, 0])
            else if bump = "minor" then [major, minor + 1, 0]
            else [major, minor, patch + 1])
  | _ => none

/-- `next_build_for_base` from next_version.py: fold the maximum 4th
segment over the 4-segment tags sharing the 3-segment base, then add 1. -/
def next_build_for_base (tags : List (String × List Nat)) (base : List Nat) : Nat :=
  (tags.foldl
    (fun mb t => if t.2.length = 4 ∧ t.2.take 3 = base then max mb (t.2.getD 3 0) else mb)
    0) + 1

/-- Base selection of `compute_next_version`: the latest stable tag's
version, else the baseline `VERSION` file. -/
def base_version_of (tags : List (String × List Nat)) (versionFileText : String) :
    Except String (List Nat) :=
  match latest_stable_tag tags with
  | some t => Except.ok t.2
  | none => read_version_file versionFileText

/-- Severity resolution of `compute_next_version`: classify the fetched
commits; an empty set fails unless `allow_empty`, which substitutes a patch
bump. -/
def bump_of (commits : List (String × String)) (allowEmpty : Bool) :
    Except String String :=
  match classify_bump commits with
  | some b => Except.ok b
  | none =>
      if allowEmpty then Except.ok "patch"
      else Except.error "No commits found since last stable tag."

/-- `compute_next_version` from next_version.py.  Git and file-system
reads are the parameters: `tagNames` is the `git tag --list v*` output,
`versionFileText` the baseline file's text, `commits` the (subject, body)
pairs fetched since the base revision. -/
def compute_next_version (tagNames : List String) (versionFileText : String)
    (commits : List (String × String)) (channel : String) (allowEmpty : Bool) :
    Except String (List Nat) :=
  let tags := list_tags tagNames
  match base_version_of tags versionFileText with
  | Except.error e => Except.error e
  | Except.ok base_version =>
      match bump_of commits allowEmpty with
      | Except.error e => Except.error e
      | Except.ok bump =>
          match bump_version base_version bump with
          | none => Except.error "VERSION base is not three segments."
          | some next_base =>
              if channel ≠ "stable" then
                Except.ok (next_base ++ [next_build_for_base tags next_base])
              else Except.ok next_base

/-! ## Character lemmas -/

theorem chr_toNat_ofNat (n : Nat) (h : n < 0xd800) : (Char.ofNat n).toNat = n := by
  rw [Char.ofNat, dif_pos (Or.inl (by exact_mod_cast h))]
  rfl

theorem lowerChar_arch {c : Char} (h : isArchChar c = true) :
    isArchChar (lowerChar c) = true := by
  simp only [isArchChar, decide_eq_true_eq] at h ⊢
  unfold lowerChar
  split
  · rw [chr_toNat_ofNat _ (by omega)]
    omega
  · omega

theorem lowerChar_not_upper {c : Char} :
    ¬(65 ≤ (lowerChar c).toNat ∧ (lowerChar c).toNat ≤ 90) := by
  unfold lowerChar
  split
  · rw [chr_toNat_ofNat _ (by omega)]
    omega
  · omega

theorem lowerChar_of_not_upper {c : Char}
    (h : ¬(65 ≤ c.toNat ∧ c.toNat ≤ 90)) : lowerChar c = c := by
  unfold lowerChar
  exact if_neg h

theorem lowerChar_idem (c : Char) : lowerChar (lowerChar c) = lowerChar c :=
  lowerChar_of_not_upper lowerChar_not_upper

theorem isArchChar_not_space {c : Char} (h : isArchChar c = true) :
    isPySpace c = false := by
  simp only [isArchChar, decide_eq_true_eq] at h
  simp only [isPySpace, decide_eq_false_iff_not]
  omega

theorem isVersionChar_of_digit {c : Char} (h : isDigitC c = true) :
    isVersionChar c = true := by
  simp [isVersionChar, h]

/-! ## List span lemmas -/

theorem takeWhile_all_cons {p : Char → Bool} {xs : List Char} {y : Char}
    (ys : List Char) (h1 : ∀ c ∈ xs, p c = true) (h2 : p y = false) :
    (xs ++ y :: ys).takeWhile p = xs := by
  induction xs with
  | nil => simp [List.takeWhile_cons, h2]
  | cons x xs ih =>
      have hx : p x = true := h1 x (by simp)
      simp only [List.cons_append, List.takeWhile_cons, hx]
      simp [ih (fun c hc => h1 c (by simp [hc]))]

theorem dropWhile_all_cons {p : Char → Bool} {xs : List Char} {y : Char}
    (ys : List Char) (h1 : ∀ c ∈ xs, p c = true) (h2 : p y = false) :
    (xs ++ y :: ys).dropWhile p = y :: ys := by
  induction xs with
  | nil => simp [List.dropWhile_cons, h2]
  | cons x xs ih =>
      have hx : p x = true := h1 x (by simp)
      simp only [List.cons_append, List.dropWhile_cons, hx]
      simp [ih (fun c hc => h1 c (by simp [hc]))]

theorem dropWhile_head_false {p : Char → Bool} {cs : List Char}
    (h : ∀ c ∈ cs, p c = false) : cs.dropWhile p = cs := by
  cases cs with
  | nil => rfl
  | cons c rest => simp [List.dropWhile_cons, h c (by simp)]

theorem pyStripL_of_nospace {cs : List Char} (h : ∀ c ∈ cs, isPySpace c = false) :
    pyStripL cs = cs := by
  unfold pyStripL
  rw [dropWhile_head_false h, dropWhile_head_false (fun c hc => h c (by
    simpa using hc))]
  simp

/-! ## Version run lemmas -/

theorem splitOnDot_ne_nil (v : List Char) : splitOnDot v ≠ [] := by
  induction v with
  | nil => simp [splitOnDot]
  | cons c cs ih =>
      unfold splitOnDot
      split
      · simp
      · cases hs : splitOnDot cs with
        | nil => simp
        | cons s ss => simp

theorem mem_splitOnDot_chars {v : List Char} {c : Char} (hc : c ∈ v)
    (h : (splitOnDot v).all (fun s => s.all isDigitC) = true) :
    isVersionChar c = true := by
  induction v with
  | nil => cases hc
  | cons d cs ih =>
      unfold splitOnDot at h
      by_cases hd : d = '.'
      · rw [if_pos hd] at h
        simp only [List.all_cons, Bool.and_eq_true] at h
        rcases List.mem_cons.mp hc with rfl | hmem
        · subst hd; simp [isVersionChar, isDigitC]
        · exact ih hmem (by simpa using h.2)
      · rw [if_neg hd] at h
        cases hs : splitOnDot cs with
        | nil => exact absurd hs (splitOnDot_ne_nil cs)
        | cons s ss =>
            rw [hs] at h
            simp only [List.all_cons, Bool.and_eq_true] at h
            rcases List.mem_cons.mp hc with rfl | hmem
            · exact isVersionChar_of_digit (by simpa using h.1.1)
            · refine ih hmem ?_
              rw [hs]
              simp only [List.all_cons, Bool.and_eq_true]
              exact ⟨by simpa using h.1.2, by simpa using h.2⟩

theorem versionOk_chars {v : List Char} (h : versionOk v = true) :
    ∀ c ∈ v, isVersionChar c = true := by
  intro c hc
  unfold versionOk at h
  simp only [Bool.and_eq_true] at h
  refine mem_splitOnDot_chars hc ?_
  have h2 := h.2
  simp only [List.all_eq_true, Bool.and_eq_true] at h2 ⊢
  intro s hs
  exact (h2 s hs).2

/-! ## normalize_arch lemmas -/

theorem map_lowerChar_fix {cs : List Char} (h : ∀ c ∈ cs, lowerChar c = c) :
    cs.map lowerChar = cs := by
  induction cs with
  | nil => rfl
  | cons c rest ih =>
      simp only [List.map_cons, h c (by simp)]
      simp [ih (fun d hd => h d (by simp [hd]))]

theorem normalize_arch_props {a : String} (h0 : a.data ≠ [])
    (h2 : ∀ c ∈ a.data, isArchChar c = true) :
    (normalize_arch a).data ≠ [] ∧
    (∀ c ∈ (normalize_arch a).data, isArchChar c = true) ∧
    normalize_arch (normalize_arch a) = normalize_arch a := by
  have hns : ∀ c ∈ a.data, isPySpace c = false :=
    fun c hc => isArchChar_not_space (h2 c hc)
  have hstrip : pyStripL a.data = a.data := pyStripL_of_nospace hns
  simp only [normalize_arch, hstrip]
  by_cases hx : (⟨a.data.map lowerChar⟩ : String) = "x86_64" ∨
      (⟨a.data.map lowerChar⟩ : String) = "amd64" ∨
      (⟨a.data.map lowerChar⟩ : String) = "x64"
  · rw [if_pos hx]
    exact ⟨by decide, by decide, by decide⟩
  · rw [if_neg hx]
    by_cases ha : (⟨a.data.map lowerChar⟩ : String) = "aarch64" ∨
        (⟨a.data.map lowerChar⟩ : String) = "arm64"
    · rw [if_pos ha]
      exact ⟨by decide, by decide, by decide⟩
    · rw [if_neg ha]
      have hchars : ∀ c ∈ a.data.map lowerChar, isArchChar c = true := by
        intro c hc
        rcases List.mem_map.mp hc with ⟨d, hd, rfl⟩
        exact lowerChar_arch (h2 d hd)
      refine ⟨by simpa using h0, hchars, ?_⟩
      have hns2 : ∀ c ∈ a.data.map lowerChar, isPySpace c = false :=
        fun c hc => isArchChar_not_space (hchars c hc)
      have hfix : (a.data.map lowerChar).map lowerChar = a.data.map lowerChar := by
        refine map_lowerChar_fix ?_
        intro c hc
        rcases List.mem_map.mp hc with ⟨d, hd, rfl⟩
        exact lowerChar_idem d
      simp only [normalize_arch, pyStripL_of_nospace hns2, hfix]
      rw [if_neg hx, if_neg ha]

/-! ## Parser stage lemmas -/

theorem str_data_append (s t : String) : (s ++ t).data = s.data ++ t.data := rfl

theorem strip_pakfu (t : List Char) :
    stripLitCI ['p', 'a', 'k', 'f', 'u', '-'] ('p' :: 'a' :: 'k' :: 'f' :: 'u' :: '-' :: t) =
      some (['p', 'a', 'k', 'f', 'u', '-'], t) := rfl

theorem matchPlatform_windows (t : List Char) :
    matchPlatform ('w' :: 'i' :: 'n' :: 'd' :: 'o' :: 'w' :: 's' :: t) =
      some (['w', 'i', 'n', 'd', 'o', 'w', 's'], t) := rfl

theorem matchPlatform_macos (t : List Char) :
    matchPlatform ('m' :: 'a' :: 'c' :: 'o' :: 's' :: t) =
      some (['m', 'a', 'c', 'o', 's'], t) := rfl

theorem matchPlatform_linux (t : List Char) :
    matchPlatform ('l' :: 'i' :: 'n' :: 'u' :: 'x' :: t) =
      some (['l', 'i', 'n', 'u', 'x'], t) := rfl

theorem matchKindExt_portable_zip :
    matchKindExt ['p', 'o', 'r', 't', 'a', 'b', 'l', 'e', '.', 'z', 'i', 'p'] =
      some (['p', 'o', 'r', 't', 'a', 'b', 'l', 'e'], ['z', 'i', 'p']) := rfl

theorem matchKindExt_installer_msi :
    matchKindExt ['i', 'n', 's', 't', 'a', 'l', 'l', 'e', 'r', '.', 'm', 's', 'i'] =
      some (['i', 'n', 's', 't', 'a', 'l', 'l', 'e', 'r'], ['m', 's', 'i']) := rfl

theorem matchKindExt_installer_pkg :
    matchKindExt ['i', 'n', 's', 't', 'a', 'l', 'l', 'e', 'r', '.', 'p', 'k', 'g'] =
      some (['i', 'n', 's', 't', 'a', 'l', 'l', 'e', 'r'], ['p', 'k', 'g']) := rfl

theorem matchKindExt_portable_targz :
    matchKindExt ['p', 'o', 'r', 't', 'a', 'b', 'l', 'e', '.', 't', 'a', 'r', '.', 'g', 'z'] =
      some (['p', 'o', 'r', 't', 'a', 'b', 'l', 'e'], ['t', 'a', 'r', '.', 'g', 'z']) := rfl

theorem matchKindExt_installer_appimage :
    matchKindExt ['i', 'n', 's', 't', 'a', 'l', 'l', 'e', 'r', '.', 'A', 'p', 'p', 'I', 'm', 'a', 'g', 'e'] =
      some (['i', 'n', 's', 't', 'a', 'l', 'l', 'e', 'r'], ['A', 'p', 'p', 'I', 'm', 'a', 'g', 'e']) := rfl

theorem matchArchTail_of {na tail kind ext : List Char}
    (h0 : na ≠ []) (h1 : ∀ c ∈ na, isArchChar c = true)
    (hk : matchKindExt tail = some (kind, ext)) :
    matchArchTail (na ++ '-' :: tail) = some (na, kind, ext) := by
  unfold matchArchTail
  rw [takeWhile_all_cons tail h1 (by decide), dropWhile_all_cons tail h1 (by decide)]
  simp [List.isEmpty_iff, h0, hk]

theorem strLower_windows : strLower "windows" = "windows" := by decide

theorem strLower_macos : strLower "macos" = "macos" := by decide

theorem strLower_linux : strLower "linux" = "linux" := by decide

theorem strLower_portable : strLower "portable" = "portable" := by decide

theorem strLower_installer : strLower "installer" = "installer" := by decide

set_option maxHeartbeats 1000000 in
/-- C1: for every (platform, kind) pair of the fixed extension table, every
version of at least 3 dot-separated numeric segments and every nonempty
architecture token over letters/digits/underscores, decoding the encoded
filename succeeds and returns the normalized inputs: the version verbatim,
the platform and kind (already lower-case in the table), the normalized
architecture, the table extension, and the installable flag iff the kind is
installer. -/
theorem c1_roundtrip (p k e : String) (hpk : ((p, k), e) ∈ EXPECTED_EXTENSIONS)
    (v a : String) (hv : versionOk v.data = true)
    (h0 : a.data ≠ []) (ha : ∀ c ∈ a.data, isArchChar c = true) :
    ∃ fn, expected_filename v p a k = some fn ∧
      parse_asset_name fn = some
        { filename := fn, version := v, platform := p, arch := normalize_arch a,
          kind := k, extension := e, installable := (k == "installer") } := by
  obtain ⟨hne, harch, hidem⟩ := normalize_arch_props h0 ha
  have hvchars := versionOk_chars hv
  have h1 : (⟨v.data⟩ : String) = v := rfl
  have h2 : normalize_arch (⟨(normalize_arch a).data⟩ : String) = normalize_arch a := hidem
  simp only [EXPECTED_EXTENSIONS, List.mem_cons, List.not_mem_nil, or_false] at hpk
  rcases hpk with h | h | h | h | h | h <;>
    (simp only [Prod.mk.injEq] at h; obtain ⟨⟨rfl, rfl⟩, rfl⟩ := h) <;>
    refine ⟨_, rfl, ?_⟩ <;>
    simp only [parse_asset_name, assetMatch, strLower_windows, strLower_macos,
      strLower_linux, strLower_portable, strLower_installer, str_data_append,
      List.append_assoc, List.cons_append, List.nil_append, strip_pakfu] <;>
    rw [takeWhile_all_cons _ hvchars (by decide), dropWhile_all_cons _ hvchars (by decide)] <;>
    simp only [hv, if_true, matchPlatTail, matchPlatform_windows, matchPlatform_macos,
      matchPlatform_linux] <;>
    (first
      | rw [matchArchTail_of hne harch matchKindExt_portable_zip]
      | rw [matchArchTail_of hne harch matchKindExt_installer_msi]
      | rw [matchArchTail_of hne harch matchKindExt_installer_pkg]
      | rw [matchArchTail_of hne harch matchKindExt_portable_targz]
      | rw [matchArchTail_of hne harch matchKindExt_installer_appimage]) <;>
    simp only [Option.map_some', h1, h2] <;>
    rfl

/-- Witness for C1 at (linux, installer), version `1.5.0`, arch `aarch64`. -/
theorem c1_roundtrip_witness :
    ((("linux", "installer"), "AppImage") ∈ EXPECTED_EXTENSIONS) ∧
    versionOk "1.5.0".data = true ∧
    ("aarch64".data ≠ [] ∧ ∀ c ∈ "aarch64".data, isArchChar c = true) ∧
    (∃ fn, expected_filename "1.5.0" "linux" "aarch64" "installer" = some fn ∧
      parse_asset_name fn = some
        { filename := fn, version := "1.5.0", platform := "linux",
          arch := normalize_arch "aarch64", kind := "installer",
          extension := "AppImage", installable := ("installer" == "installer") }) :=
  ⟨by decide, by decide, ⟨by decide, by decide⟩,
    c1_roundtrip "linux" "installer" "AppImage" (by decide) "1.5.0" "aarch64"
      (by decide) (by decide) (by decide)⟩

/-- C2: bump application on a 3-segment base: severity major bumps minor
(resetting patch) while major is 0, else bumps major (resetting the rest);
minor bumps minor resetting patch; patch bumps patch. -/
theorem c2_bump_rules (major minor patch : Nat) :
    bump_version [major, minor, patch] "major" =
      some (if major = 0 then [0, minor + 1, 0] else [major + 1, 0, 0]) ∧
    bump_version [major, minor, patch] "minor" = some [major, minor + 1, 0] ∧
    bump_version [major, minor, patch] "patch" = some [major, minor, patch + 1] := by
  refine ⟨?_, by simp [bump_version], by simp [bump_version]⟩
  by_cases hM : major = 0
  · simp [bump_version, hM]
  · simp [bump_version, hM]

/-- C4 counterexample: the classifier applies no merge-marker filtering.  A
merge commit whose body carries `BREAKING CHANGE` drives the severity to
major; with the merge commit removed the same history classifies as patch,
so the severity is not invariant under dropping merge commits. -/
theorem c4_counterexample :
    classify_bump
      [("Merge branch dev into main", "BREAKING CHANGE: api"),
       ("fix: null check", "")] = some "major" ∧
    classify_bump [("fix: null check", "")] = some "patch" := by
  exact ⟨by decide, by decide⟩

/-- C4 (amended): `classify_bump` applies no merge- or release-chore
normalization; a commit matching neither the breaking nor the feature
pattern (and without `BREAKING CHANGE` in its body) still counts as a
qualifying commit carrying the default patch severity, so prepending such
a commit turns an empty classification into patch and otherwise leaves the
fold unchanged. -/
theorem c4_amended (s b : String) (cs : List (String × String))
    (h1 : breaking_match s = false) (h2 : containsBreaking b = false)
    (h3 : feature_match s = false) :
    classify_bump ((s, b) :: cs) = some ((classify_bump cs).getD "patch") := by
  cases cs with
  | nil => simp [classify_bump, classifyGo, h1, h2, h3]
  | cons c rest => simp [classify_bump, classifyGo, h1, h2, h3]

/-- Witness for C4's amended statement: a merge-marker commit ahead of a
feature commit leaves the severity at minor. -/
theorem c4_amended_witness :
    breaking_match "Merge pull request 7 from feature" = false ∧
    containsBreaking "" = false ∧
    feature_match "Merge pull request 7 from feature" = false ∧
    classify_bump [("Merge pull request 7 from feature", ""), ("feat: importer", "")] =
      some ((classify_bump [("feat: importer", "")]).getD "patch") :=
  ⟨by decide, by decide, by decide,
    c4_amended "Merge pull request 7 from feature" "" [("feat: importer", "")]
      (by decide) (by decide) (by decide)⟩

/-- C5 counterexample: decode compares extensions case-insensitively, so a
filename with extension `appimage` decodes successfully to an asset whose
`extension` field is `appimage`, which is not the table value `AppImage`. -/
theorem c5_counterexample :
    parse_asset_name "pakfu-1.2.3-linux-x64-installer.appimage" =
      some { filename := "pakfu-1.2.3-linux-x64-installer.appimage",
             version := "1.2.3", platform := "linux", arch := "x64",
             kind := "installer", extension := "appimage", installable := true } ∧
    expected_ext? "linux" "installer" = some "AppImage" ∧
    ("appimage" : String) ≠ "AppImage" := by
  exact ⟨by decide, by decide, by decide⟩

/-- C5 (amended): every successfully decoded asset has an extension equal
to the table extension for its (platform, kind) pair up to ASCII case, and
decode returns none whenever the captured extension differs from the table
value case-insensitively. -/
theorem c5_amended :
    (∀ fn asset, parse_asset_name fn = some asset →
      ∃ e, expected_ext? asset.platform asset.kind = some e ∧
        strLower asset.extension = strLower e) ∧
    (∀ fn g e, assetMatch fn.data = some g →
      expected_ext? (strLower ⟨g.platform⟩) (strLower ⟨g.kind⟩) = some e →
      strLower (⟨g.ext⟩ : String) ≠ strLower e →
      parse_asset_name fn = none) := by
  constructor
  · intro fn asset h
    cases hm : assetMatch fn.data with
    | none => simp [parse_asset_name, hm] at h
    | some g =>
        simp only [parse_asset_name, hm] at h
        split at h
        · exact absurd h (by simp)
        · rename_i e heq
          by_cases hne : strLower (⟨g.ext⟩ : String) ≠ strLower e
          · rw [if_pos hne] at h
            exact absurd h (by simp)
          · rw [if_neg hne] at h
            injection h with h
            subst h
            exact ⟨e, heq, not_ne_iff.mp hne⟩
  · intro fn g e hm he hne
    simp only [parse_asset_name, hm, he]
    rw [if_pos hne]

/-- Witness for C5's amended statement at the `appimage` filename. -/
theorem c5_amended_witness :
    ∃ e, expected_ext? "linux" "installer" = some e ∧
      strLower "appimage" = strLower e := by
  have h := c5_amended.1 "pakfu-1.2.3-linux-x64-installer.appimage"
    { filename := "pakfu-1.2.3-linux-x64-installer.appimage", version := "1.2.3",
      platform := "linux", arch := "x64", kind := "installer",
      extension := "appimage", installable := true } (by decide)
  simpa using h

/-! ## Build ordinal lemmas (next_version.py, channel handling) -/

/-- The 4th segments of every 4-segment tag whose first three segments
equal the given base — the candidate set named by the spec's build-ordinal
rule, for comparison with `next_build_for_base`. -/
def spec_build_candidates (tags : List (String × List Nat)) (base : List Nat) :
    List Nat :=
  tags.filterMap
    (fun t => if t.2.length = 4 ∧ t.2.take 3 = base then some (t.2.getD 3 0) else none)

theorem next_build_fold (tags : List (String × List Nat)) (base : List Nat) :
    ∀ acc : Nat,
      tags.foldl
        (fun mb t => if t.2.length = 4 ∧ t.2.take 3 = base then max mb (t.2.getD 3 0) else mb)
        acc
        = max acc ((spec_build_candidates tags base).foldr max 0) := by
  induction tags with
  | nil => intro acc; simp [spec_build_candidates]
  | cons t ts ih =>
      intro acc
      by_cases h : t.2.length = 4 ∧ t.2.take 3 = base
      · simp only [List.foldl_cons, spec_build_candidates, List.filterMap_cons,
          if_pos h]
        rw [ih (max acc (t.2.getD 3 0))]
        simp only [spec_build_candidates] at ih ⊢
        simp only [List.foldr_cons]
        omega
      · simp only [List.foldl_cons, spec_build_candidates, List.filterMap_cons,
          if_neg h]
        exact ih acc

theorem next_build_eq (tags : List (String × List Nat)) (base : List Nat) :
    next_build_for_base tags base =
      1 + (spec_build_candidates tags base).foldr max 0 := by
  unfold next_build_for_base
  rw [next_build_fold]
  omega

theorem bump_version_length {base : List Nat} {bump : String} {B : List Nat}
    (hB : bump_version base bump = some B) : B.length = 3 := by
  cases base with
  | nil => simp [bump_version] at hB
  | cons a t1 =>
      cases t1 with
      | nil => simp [bump_version] at hB
      | cons b t2 =>
          cases t2 with
          | nil => simp [bump_version] at hB
          | cons c t3 =>
              cases t3 with
              | cons d t4 => simp [bump_version] at hB
              | nil =>
                  simp only [bump_version, Option.some.injEq] at hB
                  subst hB
                  split <;> (try split) <;> rfl

/-- C6: for a non-stable channel, a successful resolution returns the
3-segment bumped base extended with a build ordinal equal to 1 plus the
maximum 4th segment over all 4-segment tags whose first three segments
equal the bumped base, and the ordinal is 1 when no such tag exists. -/
theorem c6_prerelease_build (tagNames : List String) (fileText : String)
    (commits : List (String × String)) (channel : String) (allowEmpty : Bool)
    (base : List Nat) (bump : String) (B : List Nat)
    (hch : channel = "beta" ∨ channel = "dev")
    (hbase : base_version_of (list_tags tagNames) fileText = Except.ok base)
    (hbump : bump_of commits allowEmpty = Except.ok bump)
    (hB : bump_version base bump = some B) :
    B.length = 3 ∧
    compute_next_version tagNames fileText commits channel allowEmpty =
      Except.ok (B ++ [1 + (spec_build_candidates (list_tags tagNames) B).foldr max 0]) ∧
    (spec_build_candidates (list_tags tagNames) B = [] →
      next_build_for_base (list_tags tagNames) B = 1) := by
  have hnb := next_build_eq (list_tags tagNames) B
  refine ⟨bump_version_length hB, ?_, ?_⟩
  · have hcs : channel ≠ "stable" := by rcases hch with rfl | rfl <;> decide
    simp only [compute_next_version, hbase, hbump, hB, if_pos hcs, hnb]
  · intro hempty
    rw [hnb, hempty]
    rfl

/-- Witness for C6: base tag v1.4.0, one feature commit, channel beta, an
existing build tag v1.5.0.1 for the bumped base, hence version 1.5.0.2. -/
theorem c6_witness :
    (("beta" = "beta" ∨ ("beta" : String) = "dev") ∧
      base_version_of (list_tags ["v1.4.0", "v1.5.0.1"]) "" = Except.ok [1, 4, 0] ∧
      bump_of [("feat: add importer", "")] false = Except.ok "minor" ∧
      bump_version [1, 4, 0] "minor" = some [1, 5, 0]) ∧
    compute_next_version ["v1.4.0", "v1.5.0.1"] "" [("feat: add importer", "")]
      "beta" false = Except.ok [1, 5, 0, 2] := by
  refine ⟨⟨Or.inl rfl, by rfl, by rfl, by decide⟩, ?_⟩
  have h := (c6_prerelease_build ["v1.4.0", "v1.5.0.1"] "" [("feat: add importer", "")]
    "beta" false [1, 4, 0] "minor" [1, 5, 0] (Or.inl rfl) (by rfl) (by rfl)
    (by decide)).2.1
  rw [h]
  rfl

/-- C7: with an empty fetched commit set, resolution fails with the
no-commits error when allow_empty is false, and applies an implicit patch
bump of the base when allow_empty is true. -/
theorem c7_empty_commits (tagNames : List String) (fileText : String)
    (channel : String) (base : List Nat)
    (hbase : base_version_of (list_tags tagNames) fileText = Except.ok base) :
    compute_next_version tagNames fileText [] channel false =
      Except.error "No commits found since last stable tag." ∧
    (∀ B, bump_version base "patch" = some B →
      compute_next_version tagNames fileText [] channel true =
        Except.ok (if channel ≠ "stable"
          then B ++ [next_build_for_base (list_tags tagNames) B]
          else B)) := by
  constructor
  · simp only [compute_next_version, hbase]
    rfl
  · intro B hB
    have hb : bump_of [] true = Except.ok "patch" := rfl
    simp only [compute_next_version, hbase, hb, hB]
    by_cases hcs : channel = "stable"
    · subst hcs; rfl
    · rw [if_pos hcs, if_pos hcs]

/-- Witness for C7: base tag v1.4.0, no commits; stable channel fails
without allow_empty and yields the patch bump 1.4.1 with it. -/
theorem c7_witness :
    base_version_of (list_tags ["v1.4.0"]) "" = Except.ok [1, 4, 0] ∧
    compute_next_version ["v1.4.0"] "" [] "stable" false =
      Except.error "No commits found since last stable tag." ∧
    compute_next_version ["v1.4.0"] "" [] "stable" true = Except.ok [1, 4, 1] := by
  refine ⟨by rfl, ?_, ?_⟩
  · exact (c7_empty_commits ["v1.4.0"] "" "stable" [1, 4, 0] (by rfl)).1
  · have h := (c7_empty_commits ["v1.4.0"] "" "stable" [1, 4, 0] (by rfl)).2
      [1, 4, 1] (by decide)
    rw [h]
    rfl

/-! ## Manifest lemmas -/

theorem parse_filename_eq {fn : String} {a : ReleaseAsset}
    (h : parse_asset_name fn = some a) : a.filename = fn := by
  cases hm : assetMatch fn.data with
  | none => simp [parse_asset_name, hm] at h
  | some g =>
      simp only [parse_asset_name, hm] at h
      split at h
      · exact absurd h (by simp)
      · rename_i e heq
        by_cases hne : strLower (⟨g.ext⟩ : String) ≠ strLower e
        · rw [if_pos hne] at h
          exact absurd h (by simp)
        · rw [if_neg hne] at h
          injection h with h
          subst h
          rfl

theorem manifest_assets_mem (files : List String) (version : String) (x : ReleaseAsset) :
    x ∈ (manifest_split files version).1 ↔
      x.filename ∈ files ∧ parse_asset_name x.filename = some x ∧
        x.version = version := by
  induction files with
  | nil => simp [manifest_split]
  | cons f fs ih =>
      cases hp : parse_asset_name f with
      | none =>
          simp only [manifest_split, hp]
          rw [ih]
          constructor
          · rintro ⟨h1, h2, h3⟩
            exact ⟨List.mem_cons_of_mem _ h1, h2, h3⟩
          · rintro ⟨h1, h2, h3⟩
            rcases List.mem_cons.mp h1 with heq | h1'
            · rw [heq, hp] at h2
              cases h2
            · exact ⟨h1', h2, h3⟩
      | some parsed =>
          by_cases hv : parsed.version ≠ version
          · simp only [manifest_split, hp, if_pos hv]
            rw [ih]
            constructor
            · rintro ⟨h1, h2, h3⟩
              exact ⟨List.mem_cons_of_mem _ h1, h2, h3⟩
            · rintro ⟨h1, h2, h3⟩
              rcases List.mem_cons.mp h1 with heq | h1'
              · rw [heq, hp] at h2
                injection h2 with h2
                subst h2
                exact absurd h3 hv
              · exact ⟨h1', h2, h3⟩
          · simp only [manifest_split, hp, if_neg hv]
            rw [not_ne_iff] at hv
            simp only [List.mem_cons]
            rw [ih]
            constructor
            · rintro (rfl | ⟨h1, h2, h3⟩)
              · have hfn := parse_filename_eq hp
                refine ⟨Or.inl hfn, ?_, hv⟩
                rw [hfn]
                exact hp
              · exact ⟨Or.inr h1, h2, h3⟩
            · rintro ⟨h1, h2, h3⟩
              rcases h1 with heq | h1'
              · left
                rw [heq, hp] at h2
                injection h2 with h2
                exact h2.symm
              · right
                exact ⟨h1', h2, h3⟩

theorem manifest_ignored_mem (files : List String) (version fname : String) :
    fname ∈ (manifest_split files version).2 ↔
      fname ∈ files ∧ (parse_asset_name fname = none ∨
        ∃ a, parse_asset_name fname = some a ∧ a.version ≠ version) := by
  induction files with
  | nil => simp [manifest_split]
  | cons f fs ih =>
      cases hp : parse_asset_name f with
      | none =>
          simp only [manifest_split, hp, List.mem_cons]
          rw [ih]
          constructor
          · rintro (rfl | ⟨h1, h2⟩)
            · exact ⟨Or.inl rfl, Or.inl hp⟩
            · exact ⟨Or.inr h1, h2⟩
          · rintro ⟨h1, h2⟩
            rcases h1 with rfl | h1'
            · exact Or.inl rfl
            · exact Or.inr ⟨h1', h2⟩
      | some parsed =>
          by_cases hv : parsed.version ≠ version
          · simp only [manifest_split, hp, if_pos hv, List.mem_cons]
            rw [ih]
            constructor
            · rintro (rfl | ⟨h1, h2⟩)
              · exact ⟨Or.inl rfl, Or.inr ⟨parsed, hp, hv⟩⟩
              · exact ⟨Or.inr h1, h2⟩
            · rintro ⟨h1, h2⟩
              rcases h1 with rfl | h1'
              · exact Or.inl rfl
              · exact Or.inr ⟨h1', h2⟩
          · simp only [manifest_split, hp, if_neg hv]
            rw [not_ne_iff] at hv
            rw [ih]
            constructor
            · rintro ⟨h1, h2⟩
              exact ⟨List.mem_cons_of_mem _ h1, h2⟩
            · rintro ⟨h1, h2⟩
              rcases List.mem_cons.mp h1 with rfl | h1'
              · rcases h2 with hn | ⟨a, ha, hav⟩
                · rw [hp] at hn
                  cases hn
                · rw [hp] at ha
                  injection ha with ha
                  subst ha
                  exact absurd hv hav
              · exact ⟨h1', h2⟩

/-- C8: a scanned filename lands in `ignored_files` exactly when its decode
fails or its decoded version differs from the requested one, and appears
among the manifest's assets exactly when it decodes to the requested
version; no filename is in `assets` when its decode failed or mismatched. -/
theorem c8_manifest_partition (files : List String) (version fname : String)
    (hmem : fname ∈ files) :
    (fname ∈ (manifest_split files version).2 ↔
      parse_asset_name fname = none ∨
      ∃ a, parse_asset_name fname = some a ∧ a.version ≠ version) ∧
    ((∃ a ∈ (manifest_split files version).1, a.filename = fname) ↔
      ∃ a, parse_asset_name fname = some a ∧ a.version = version) := by
  constructor
  · rw [manifest_ignored_mem]
    exact ⟨fun h => h.2, fun h => ⟨hmem, h⟩⟩
  · constructor
    · rintro ⟨a, ha, rfl⟩
      have h := (manifest_assets_mem files version a).mp ha
      exact ⟨a, h.2.1, h.2.2⟩
    · rintro ⟨a, hp, hv⟩
      have hfn := parse_filename_eq hp
      refine ⟨a, (manifest_assets_mem files version a).mpr ?_, hfn⟩
      rw [hfn]
      exact ⟨hmem, hp, hv⟩

/-- Witness for C8: an undecodable file is ignored. -/
theorem c8_witness :
    "junk.txt" ∈
      (manifest_split ["junk.txt", "pakfu-1.0.0-linux-x64-portable.tar.gz"] "1.0.0").2 :=
  (c8_manifest_partition ["junk.txt", "pakfu-1.0.0-linux-x64-portable.tar.gz"]
    "1.0.0" "junk.txt" (by decide)).1.mpr (Or.inl (by decide))

/-! ## Validator grouping lemmas -/

/-- Key/kind membership in the grouped structure. -/
def hasKindIn (gs : List ((String × String) × List String))
    (key : String × String) (k : String) : Prop :=
  ∃ ks, (key, ks) ∈ gs ∧ k ∈ ks

theorem hasKindIn_addKind {gs : List ((String × String) × List String)}
    {key0 key : String × String} {k0 k : String}
    (h : hasKindIn (addKindToGroups gs key0 k0) key k) :
    hasKindIn gs key k ∨ (key = key0 ∧ k = k0) := by
  induction gs with
  | nil =>
      obtain ⟨ks, hmem, hk⟩ := h
      simp only [addKindToGroups, List.mem_singleton, Prod.mk.injEq] at hmem
      obtain ⟨rfl, rfl⟩ := hmem
      right
      exact ⟨rfl, by simpa using hk⟩
  | cons e rest ih =>
      obtain ⟨ek, eks⟩ := e
      obtain ⟨ks, hmem, hk⟩ := h
      simp only [addKindToGroups] at hmem
      by_cases he : ek = key0
      · rw [if_pos he] at hmem
        rcases List.mem_cons.mp hmem with heq | hmem'
        · rw [Prod.mk.injEq] at heq
          obtain ⟨rfl, rfl⟩ := heq
          by_cases hk0 : k0 ∈ eks
          · rw [if_pos hk0] at hk
            exact Or.inl ⟨eks, List.mem_cons_self _ _, hk⟩
          · rw [if_neg hk0] at hk
            rcases List.mem_append.mp hk with hkl | hkr
            · exact Or.inl ⟨eks, List.mem_cons_self _ _, hkl⟩
            · exact Or.inr ⟨he, by simpa using hkr⟩
        · exact Or.inl ⟨ks, List.mem_cons_of_mem _ hmem', hk⟩
      · rw [if_neg he] at hmem
        rcases List.mem_cons.mp hmem with heq | hmem'
        · rw [Prod.mk.injEq] at heq
          obtain ⟨rfl, rfl⟩ := heq
          exact Or.inl ⟨ks, List.mem_cons_self _ _, hk⟩
        · rcases ih ⟨ks, hmem', hk⟩ with hl | hr
          · obtain ⟨ks', hmem'', hk'⟩ := hl
            exact Or.inl ⟨ks', List.mem_cons_of_mem _ hmem'', hk'⟩
          · exact Or.inr hr

theorem hasKindIn_groups {l : List ReleaseAsset} :
    ∀ {gs key k}, hasKindIn
        (l.foldl (fun gs a => addKindToGroups gs (a.platform, a.arch) a.kind) gs) key k →
      hasKindIn gs key k ∨ ∃ x ∈ l, (x.platform, x.arch) = key ∧ x.kind = k := by
  induction l with
  | nil => intro gs key k h; exact Or.inl h
  | cons x xs ih =>
      intro gs key k h
      simp only [List.foldl_cons] at h
      rcases ih h with h' | h'
      · rcases hasKindIn_addKind h' with h'' | ⟨rfl, rfl⟩
        · exact Or.inl h''
        · exact Or.inr ⟨x, List.mem_cons_self _ _, rfl, rfl⟩
      · obtain ⟨y, hy, hkey, hkind⟩ := h'
        exact Or.inr ⟨y, List.mem_cons_of_mem _ hy, hkey, hkind⟩

theorem by_platform_arch_kind {l : List ReleaseAsset} {key : String × String} {k : String}
    (h : hasKindIn (by_platform_arch l) key k) :
    ∃ x ∈ l, (x.platform, x.arch) = key ∧ x.kind = k := by
  rcases hasKindIn_groups h with h' | h'
  · obtain ⟨ks, hks, _⟩ := h'
    simp at hks
  · exact h'

theorem keys_addKind_super {gs : List ((String × String) × List String)}
    {key0 key : String × String} {k0 : String}
    (h : key ∈ gs.map Prod.fst ∨ key = key0) :
    key ∈ (addKindToGroups gs key0 k0).map Prod.fst := by
  induction gs with
  | nil =>
      rcases h with h | rfl
      · simp at h
      · simp [addKindToGroups]
  | cons e rest ih =>
      obtain ⟨ek, eks⟩ := e
      simp only [addKindToGroups]
      by_cases he : ek = key0
      · rw [if_pos he]
        simp only [List.map_cons, List.mem_cons]
        rcases h with h | rfl
        · rcases List.mem_cons.mp (by simpa only [List.map_cons] using h) with h' | h'
          · exact Or.inl h'
          · exact Or.inr h'
        · exact Or.inl he.symm
      · rw [if_neg he]
        simp only [List.map_cons, List.mem_cons]
        rcases h with h | rfl
        · rcases List.mem_cons.mp (by simpa only [List.map_cons] using h) with h' | h'
          · exact Or.inl h'
          · exact Or.inr (ih (Or.inl h'))
        · exact Or.inr (ih (Or.inr rfl))

theorem keys_groups_super {l : List ReleaseAsset} :
    ∀ {gs key}, (key ∈ gs.map Prod.fst ∨ ∃ x ∈ l, key = (x.platform, x.arch)) →
      key ∈ (l.foldl (fun gs a => addKindToGroups gs (a.platform, a.arch) a.kind) gs).map
        Prod.fst := by
  induction l with
  | nil =>
      intro gs key h
      rcases h with h | ⟨x, hx, _⟩
      · exact h
      · simp at hx
  | cons x xs ih =>
      intro gs key h
      simp only [List.foldl_cons]
      rcases h with h | ⟨y, hy, rfl⟩
      · exact ih (Or.inl (keys_addKind_super (Or.inl h)))
      · rcases List.mem_cons.mp hy with rfl | hy'
        · exact ih (Or.inl (keys_addKind_super (Or.inr rfl)))
        · exact ih (Or.inr ⟨y, hy', rfl⟩)

theorem mem_by_platform_arch_of_mem {l : List ReleaseAsset} {x : ReleaseAsset}
    (hx : x ∈ l) :
    (x.platform, x.arch) ∈ (by_platform_arch l).map Prod.fst :=
  keys_groups_super (Or.inr ⟨x, hx, rfl⟩)

theorem mem_addKind_key {gs : List ((String × String) × List String)}
    {key0 : String × String} {k0 : String} {g : (String × String) × List String}
    (hg : g ∈ addKindToGroups gs key0 k0) :
    g.1 = key0 ∨ ∃ g' ∈ gs, g'.1 = g.1 := by
  induction gs with
  | nil =>
      simp only [addKindToGroups, List.mem_singleton] at hg
      subst hg
      exact Or.inl rfl
  | cons e rest ih =>
      obtain ⟨ek, eks⟩ := e
      simp only [addKindToGroups] at hg
      by_cases he : ek = key0
      · rw [if_pos he] at hg
        rcases List.mem_cons.mp hg with rfl | hg'
        · exact Or.inl he
        · exact Or.inr ⟨g, List.mem_cons_of_mem _ hg', rfl⟩
      · rw [if_neg he] at hg
        rcases List.mem_cons.mp hg with rfl | hg'
        · exact Or.inr ⟨(ek, eks), List.mem_cons_self _ _, rfl⟩
        · rcases ih hg' with h | ⟨g', hg'', heq⟩
          · exact Or.inl h
          · exact Or.inr ⟨g', List.mem_cons_of_mem _ hg'', heq⟩

theorem mem_groups_fold {l : List ReleaseAsset} :
    ∀ {gs g}, g ∈ l.foldl (fun gs a => addKindToGroups gs (a.platform, a.arch) a.kind) gs →
      (∃ g' ∈ gs, g'.1 = g.1) ∨ ∃ x ∈ l, (x.platform, x.arch) = g.1 := by
  induction l with
  | nil => intro gs g hg; exact Or.inl ⟨g, hg, rfl⟩
  | cons x xs ih =>
      intro gs g hg
      simp only [List.foldl_cons] at hg
      rcases ih hg with ⟨g', hg', heq⟩ | ⟨y, hy, hkey⟩
      · rcases mem_addKind_key hg' with h | ⟨g'', hg'', heq'⟩
        · exact Or.inr ⟨x, List.mem_cons_self _ _, by rw [← heq, h]⟩
        · exact Or.inl ⟨g'', hg'', by rw [heq', heq]⟩
      · exact Or.inr ⟨y, List.mem_cons_of_mem _ hy, hkey⟩

theorem mem_groups_key {l : List ReleaseAsset} {g : (String × String) × List String}
    (hg : g ∈ by_platform_arch l) :
    ∃ x ∈ l, (x.platform, x.arch) = g.1 := by
  rcases mem_groups_fold hg with ⟨g', hg', _⟩ | h
  · simp at hg'
  · exact h

theorem truthy_none : truthy none = none := rfl

theorem norm_arch_scope_none : norm_arch_scope none = none := rfl

theorem scope_filter_none_none (assets : List ReleaseAsset) (version : String) :
    scope_filter assets version none none =
      assets.filter (fun a => a.version = version) := rfl

theorem scope_filter_none_some (assets : List ReleaseAsset) (version na : String) :
    scope_filter assets version none (some na) =
      (assets.filter (fun a => a.version = version)).filter (fun a => a.arch = na) := rfl

theorem platform_check_step_mono {groups : List ((String × String) × List String)}
    {version : String} {errs : List String} {p msg : String} (h : msg ∈ errs) :
    msg ∈ platform_check_step groups version errs p := by
  simp only [platform_check_step]
  split
  · exact List.mem_append_left _ h
  · split
    · exact List.mem_append_left _ h
    · exact h

theorem mem_foldl_platform_mono (groups : List ((String × String) × List String))
    (version : String) (l : List String) :
    ∀ errs msg, msg ∈ errs → msg ∈ l.foldl (platform_check_step groups version) errs := by
  induction l with
  | nil => intro errs msg h; exact h
  | cons q qs ih =>
      intro errs msg h
      exact ih _ _ (platform_check_step_mono h)

theorem platform_check_step_missing {groups : List ((String × String) × List String)}
    {version : String} {errs : List String} {p : String}
    (hrows : groups.filter (fun g => g.1.1 = p) = []) :
    ("Missing all assets for platform " ++ p ++ " @ " ++ version ++ ".") ∈
      platform_check_step groups version errs p := by
  simp only [platform_check_step, hrows, List.map_nil, List.isEmpty_nil, if_true]
  simp

theorem platform_check_step_notboth {groups : List ((String × String) × List String)}
    {version : String} {errs : List String} {p : String}
    (hne : groups.filter (fun g => g.1.1 = p) ≠ [])
    (hnb : ((groups.filter (fun g => g.1.1 = p)).map (fun g => g.2)).any
        (fun kinds => kinds.contains "portable" && kinds.contains "installer") = false) :
    ("Platform " ++ p ++ " does not have both portable and installer assets @ " ++
      version ++ ".") ∈ platform_check_step groups version errs p := by
  have hmapne : (groups.filter (fun g => g.1.1 = p)).map (fun g => g.2) ≠ [] := by
    simpa using hne
  simp only [platform_check_step]
  rw [if_neg (by simpa [List.isEmpty_iff] using hmapne), hnb]
  simp

theorem mem_foldl_platform_step (groups : List ((String × String) × List String))
    (version msg p : String) (l : List String) (hp : p ∈ l)
    (hstep : ∀ errs, msg ∈ platform_check_step groups version errs p) :
    ∀ errs, msg ∈ l.foldl (platform_check_step groups version) errs := by
  induction l with
  | nil => cases hp
  | cons q qs ih =>
      intro errs
      simp only [List.foldl_cons]
      rcases List.mem_cons.mp hp with rfl | hp'
      · exact mem_foldl_platform_mono groups version qs _ msg (hstep errs)
      · exact ih hp' _

/-- C10: with an architecture scope and no platform scope, assets are
filtered to the normalized architecture and the completeness loop still
walks all supported platforms, so any supported platform shipping no asset
for that version/architecture yields a missing-all-assets error (provided
the filtered set is nonempty, so the per-platform check is reached). -/
theorem c10_arch_scope (assets : List ReleaseAsset) (version archArg p na : String)
    (hp : p ∈ SUPPORTED_PLATFORMS)
    (hna : norm_arch_scope (some archArg) = some na)
    (hne : scope_filter assets version none (some na) ≠ [])
    (hnone : ∀ x ∈ assets, x.version = version → x.arch = na → x.platform ≠ p) :
    ("Missing all assets for platform " ++ p ++ " @ " ++ version ++ ".") ∈
      (validate_assets assets version none (some archArg)).2 := by
  have hfilter : (by_platform_arch (scope_filter assets version none (some na))).filter
      (fun g => g.1.1 = p) = [] := by
    rw [List.filter_eq_nil_iff]
    intro g hg
    rcases mem_groups_key hg with ⟨x, hx, hkey⟩
    rw [scope_filter_none_some] at hx
    have hx1 := List.mem_filter.mp hx
    have hx2 := List.mem_filter.mp hx1.1
    have hxp : x.platform ≠ p :=
      hnone x hx2.1 (of_decide_eq_true hx2.2) (of_decide_eq_true hx1.2)
    have : g.1.1 = x.platform := by rw [← hkey]
    simp [this, hxp]
  simp only [validate_assets, truthy_none, hna]
  rw [if_neg (by simpa [List.isEmpty_iff] using hne)]
  simp only []
  exact mem_foldl_platform_step _ version _ p SUPPORTED_PLATFORMS hp
    (fun errs => platform_check_step_missing hfilter) []

/-- Witness for C10: only linux assets at x64; platform windows (which
ships nothing at x64) is reported as missing all assets. -/
theorem c10_witness :
    ("windows" ∈ SUPPORTED_PLATFORMS) ∧
    norm_arch_scope (some "x64") = some "x64" ∧
    scope_filter
      (collect_assets ["pakfu-1.0.0-linux-x64-installer.AppImage",
        "pakfu-1.0.0-linux-x64-portable.tar.gz"]) "1.0.0" none (some "x64") ≠ [] ∧
    ("Missing all assets for platform windows @ 1.0.0.") ∈
      (validate_assets
        (collect_assets ["pakfu-1.0.0-linux-x64-installer.AppImage",
          "pakfu-1.0.0-linux-x64-portable.tar.gz"]) "1.0.0" none (some "x64")).2 := by
  refine ⟨by decide, by decide, by decide, ?_⟩
  have h := c10_arch_scope
    (collect_assets ["pakfu-1.0.0-linux-x64-installer.AppImage",
      "pakfu-1.0.0-linux-x64-portable.tar.gz"]) "1.0.0" "x64" "windows" "x64"
    (by decide) (by decide) (by decide) (by decide)
  simpa using h

/-- The split-architecture release of C3's scenario: windows ships its
portable asset at x64 and its installer at arm64; macos and linux are each
complete on x64 (filenames in sorted directory order). -/
def c3files : List String :=
  ["pakfu-1.0.0-linux-x64-installer.AppImage",
   "pakfu-1.0.0-linux-x64-portable.tar.gz",
   "pakfu-1.0.0-macos-x64-installer.pkg",
   "pakfu-1.0.0-macos-x64-portable.zip",
   "pakfu-1.0.0-windows-arm64-installer.msi",
   "pakfu-1.0.0-windows-x64-portable.zip"]

/-- C3 counterexample: the unscoped validator rejects the split-arch
release — it returns not-ok with an error naming platform windows, so such
a release is not accepted as complete. -/
theorem c3_counterexample :
    validate_assets (collect_assets c3files) "1.0.0" none none =
      (false,
        ["Platform windows does not have both portable and installer assets @ 1.0.0."]) := by
  decide

/-- C3 (amended): with no platform scope, a platform that ships assets but
has no single (platform, arch) group carrying both kinds is reported with
the does-not-have-both error — per-platform completeness requires one
architecture group to supply both portable and installer. -/
theorem c3_amended (assets : List ReleaseAsset) (version p : String)
    (hp : p ∈ SUPPORTED_PLATFORMS)
    (hex : ∃ x ∈ scope_filter assets version none none, x.platform = p)
    (hsplit : ¬ ∃ x ∈ scope_filter assets version none none,
        ∃ y ∈ scope_filter assets version none none,
          x.platform = p ∧ y.platform = p ∧ x.arch = y.arch ∧
          x.kind = "portable" ∧ y.kind = "installer") :
    ("Platform " ++ p ++ " does not have both portable and installer assets @ " ++
      version ++ ".") ∈ (validate_assets assets version none none).2 := by
  obtain ⟨x0, hx0, hx0p⟩ := hex
  have hne : scope_filter assets version none none ≠ [] := by
    intro h
    rw [h] at hx0
    cases hx0
  have hkey := mem_by_platform_arch_of_mem hx0
  obtain ⟨g0, hg0, hg0key⟩ := List.mem_map.mp hkey
  have hg0p : g0.1.1 = p := by rw [hg0key, hx0p]
  have hgfilter : g0 ∈ (by_platform_arch (scope_filter assets version none none)).filter
      (fun g => g.1.1 = p) :=
    List.mem_filter.mpr ⟨hg0, by simp [hg0p]⟩
  have hrowsne : (by_platform_arch (scope_filter assets version none none)).filter
      (fun g => g.1.1 = p) ≠ [] := by
    intro h
    rw [h] at hgfilter
    cases hgfilter
  have hnb : (((by_platform_arch (scope_filter assets version none none)).filter
      (fun g => g.1.1 = p)).map (fun g => g.2)).any
        (fun kinds => kinds.contains "portable" && kinds.contains "installer") = false := by
    by_contra hcon
    rw [Bool.not_eq_false, List.any_eq_true] at hcon
    obtain ⟨ks, hks, hboth⟩ := hcon
    obtain ⟨g, hgf, hg2⟩ := List.mem_map.mp hks
    have hgmem := (List.mem_filter.mp hgf).1
    have hgp : g.1.1 = p := of_decide_eq_true (List.mem_filter.mp hgf).2
    rw [Bool.and_eq_true] at hboth
    have hport : "portable" ∈ ks := by
      have := hboth.1
      simpa [List.contains] using this
    have hinst : "installer" ∈ ks := by
      have := hboth.2
      simpa [List.contains] using this
    have hk1 : hasKindIn (by_platform_arch (scope_filter assets version none none))
        g.1 "portable" := ⟨ks, by rw [← hg2]; exact hgmem, hport⟩
    have hk2 : hasKindIn (by_platform_arch (scope_filter assets version none none))
        g.1 "installer" := ⟨ks, by rw [← hg2]; exact hgmem, hinst⟩
    obtain ⟨xp, hxp, hxpkey, hxpkind⟩ := by_platform_arch_kind hk1
    obtain ⟨yi, hyi, hyikey, hyikind⟩ := by_platform_arch_kind hk2
    refine hsplit ⟨xp, hxp, yi, hyi, ?_, ?_, ?_, hxpkind, hyikind⟩
    · have : xp.platform = g.1.1 := by rw [← hxpkey]
      rw [this, hgp]
    · have : yi.platform = g.1.1 := by rw [← hyikey]
      rw [this, hgp]
    · have h1 : xp.arch = g.1.2 := by rw [← hxpkey]
      have h2 : yi.arch = g.1.2 := by rw [← hyikey]
      rw [h1, h2]
  simp only [validate_assets, truthy_none, norm_arch_scope_none]
  rw [if_neg (by simpa [List.isEmpty_iff] using hne)]
  simp only []
  exact mem_foldl_platform_step _ version _ p SUPPORTED_PLATFORMS hp
    (fun errs => platform_check_step_notboth hrowsne hnb) []

/-- Witness for C3's amended statement at the split-arch scenario. -/
theorem c3_amended_witness :
    ("windows" ∈ SUPPORTED_PLATFORMS) ∧
    (∃ x ∈ scope_filter (collect_assets c3files) "1.0.0" none none,
      x.platform = "windows") ∧
    (¬ ∃ x ∈ scope_filter (collect_assets c3files) "1.0.0" none none,
        ∃ y ∈ scope_filter (collect_assets c3files) "1.0.0" none none,
          x.platform = "windows" ∧ y.platform = "windows" ∧ x.arch = y.arch ∧
          x.kind = "portable" ∧ y.kind = "installer") ∧
    ("Platform windows does not have both portable and installer assets @ 1.0.0.") ∈
      (validate_assets (collect_assets c3files) "1.0.0" none none).2 := by
  refine ⟨by decide, by decide, by decide, ?_⟩
  have h := c3_amended (collect_assets c3files) "1.0.0" "windows"
    (by decide) (by decide) (by decide)
  simpa using h

/-- The C9 release: windows complete at x64, macos portable only, linux
installer only (filenames in sorted directory order). -/
def c9files : List String :=
  ["pakfu-1.2.3-linux-x64-installer.AppImage",
   "pakfu-1.2.3-macos-x64-portable.zip",
   "pakfu-1.2.3-windows-x64-installer.msi",
   "pakfu-1.2.3-windows-x64-portable.zip"]

/-- C9: the unscoped validator on C9's release returns not-ok with exactly
two errors, one for macos and one for linux, collected in a single call. -/
theorem c9_exhaustive :
    validate_assets (collect_assets c9files) "1.2.3" none none =
      (false,
        ["Platform macos does not have both portable and installer assets @ 1.2.3.",
         "Platform linux does not have both portable and installer assets @ 1.2.3."]) := by
  decide
